import Mathlib

/-!
# lit-builder: verification of the object-notation-to-template compiler

Shallow embedding of `src/builder.ts` (the `sanitize`, `_build` and `build`
functions) and proofs of the spec claims about it.

The compiler walks a tree of `BuildElement` objects (plain data describing
DOM structure) and accumulates a pair `(strings, values)`: a list of literal
HTML fragment strings (whose last element is the currently "open" fragment)
and a list of dynamic values, handed at the end to Lit's tagged-template
`html` call (the host-engine boundary; we stop at the pair). The source
mutates the two arrays in place; here the accumulator pair is threaded
explicitly, with each loop of the source a function from accumulator to
accumulator.

JavaScript values appearing in the tree are modelled by `Val`:
- a string child is `Val.atom (.str s)` (the `typeof element === 'string'`
  branch);
- any object — a `BuildElement` or a Lit `TemplateResult` — is `Val.obj`;
  the source duck-types a `TemplateResult` by the presence of the `strings`
  and `values` fields, which we model by the two booleans `hasStrings` and
  `hasValues` (the compiler never reads those fields' contents, only their
  presence, so the booleans capture everything the compiler observes);
- property/event/directive values are the non-node atoms `DynVal`
  (`undefined`, booleans, numbers, strings, opaque functions and directive
  tokens); they are only compared against `undefined` and pushed, never
  inspected further.
An atom child that is not a string is outside the declared TypeScript type
`(BuildElement | TemplateResult | string)[]`; we make it a no-op.

`undefined` is the explicit atom `DynVal.undef`, so the source's
`!== undefined` filters are the tests on `isUndef`; attribute values are
`Option String` (`none` = `undefined`) matching `Record<string, string>`.
JS iteration order of `for..in` over the records is the insertion order for
the identifier keys used throughout, so records are association lists.
-/

namespace LitBuilder

/-- A non-node JavaScript value: what may sit in `properties`, `events` or
`directives`, and be pushed into the dynamic `values` accumulator.
Functions and directive tokens are opaque, identified by a tag string. -/
inductive DynVal where
  | undef
  | bool (b : Bool)
  | num (n : Int)
  | str (s : String)
  | fn (id : String)
  | dirTok (id : String)
deriving DecidableEq, Repr

/-- The source's `value !== undefined` test. -/
def DynVal.isUndef : DynVal → Bool
  | .undef => true
  | _ => false

mutual
/-- A JavaScript value reachable by `_build`: a non-object atom (of which
only strings are in the declared child type), or an object — a
`BuildElement` (fields `name`, `attributes`, `properties`, `events`,
`directives`, `children`, each possibly absent) or a `TemplateResult`
(recognised by `hasStrings && hasValues`, modelling `'strings' in element
&& 'values' in element`). -/
inductive Val where
  | atom (d : DynVal)
  | obj (name : Option String)
        (attributes : Option (List (String × Option String)))
        (properties : Option (List (String × DynVal)))
        (events : Option (List (String × DynVal)))
        (directives : Option (List DynVal))
        (children : Option ValList)
        (hasStrings : Bool)
        (hasValues : Bool)

/-- An ordered `children` sequence. -/
inductive ValList where
  | nil
  | cons (hd : Val) (tl : ValList)
end

deriving instance Repr for Val
deriving instance Repr for ValList

/-- The accumulator state: the fragment list (last entry open) and the
dynamic value list, mutated in place by the source. -/
abbrev Acc := List String × List Val

/-- `str.replace(/[^a-zA-Z0-9\-_]/g, '')`: keep only the identifier
characters, preserving order. -/
def sanitize (s : String) : String :=
  String.mk (s.data.filter fun c => c.isAlpha || c.isDigit || c = '-' || c = '_')

/-- `s.replace(/c/g, r)` for a single-character pattern: each occurrence of
`c` is replaced by `r`, in one pass (the output is not rescanned). -/
def replaceChar (c : Char) (r : String) (s : String) : String :=
  String.join (s.data.map fun x => if x = c then r else String.mk [x])

/-- The attribute-value escaping chain of `_build` (builder.ts lines 67-72):
`.replace(/</g,'&lt;').replace(/>/g,'&gt;').replace(/&/g,'&amp;')
.replace(/"/g,'&quot;')`, applied left to right in exactly that order. -/
def escapeAttr (s : String) : String :=
  replaceChar '"' "&quot;"
    (replaceChar '&' "&amp;"
      (replaceChar '>' "&gt;"
        (replaceChar '<' "&lt;" s)))

/-- `strings[strings.length - 1] += s`: append to the open (last) fragment. -/
def appendLast (l : List String) (s : String) : List String :=
  match l with
  | [] => []
  | [a] => [a ++ s]
  | a :: rest => a :: appendLast rest s

/-- `strings[strings.length - 1] += t` at the accumulator level. -/
def appendText (t : String) (acc : Acc) : Acc :=
  (appendLast acc.1 t, acc.2)

/-- `!element.name`: absent or empty tag name is falsy, making the element a
fragment node. -/
def nameFalsy : Option String → Bool
  | none => true
  | some s => s.isEmpty

/-- The attribute loop (builder.ts lines 64-76): entries whose value is
`undefined` are skipped; others append ` key="escaped-value"` (sanitized
key, escaped value) to the open fragment. Only the fragment list changes. -/
def addAttrs : List (String × Option String) → List String → List String
  | [], strings => strings
  | (_, none) :: rest, strings => addAttrs rest strings
  | (key, some v) :: rest, strings =>
      addAttrs rest
        (appendLast strings (" " ++ sanitize key ++ "=\"" ++ escapeAttr v ++ "\""))

/-- The property loop (builder.ts lines 79-88): entries whose value is
`undefined` are skipped; others append ` .key=` to the open fragment, push
the raw value, and open a new empty fragment. -/
def addProps : List (String × DynVal) → Acc → Acc
  | [], acc => acc
  | (key, v) :: rest, acc =>
      if v.isUndef then addProps rest acc
      else addProps rest
        (appendLast acc.1 (" ." ++ sanitize key ++ "=") ++ [""], acc.2 ++ [.atom v])

/-- The event loop (builder.ts lines 91-100): same as properties but with
the `@` binding prefix. -/
def addEvents : List (String × DynVal) → Acc → Acc
  | [], acc => acc
  | (key, v) :: rest, acc =>
      if v.isUndef then addEvents rest acc
      else addEvents rest
        (appendLast acc.1 (" @" ++ sanitize key ++ "=") ++ [""], acc.2 ++ [.atom v])

/-- The directive loop (builder.ts lines 103-109): every entry — with no
`undefined` filter — appends a single space, is pushed as a dynamic value,
and opens a new empty fragment. -/
def addDirs : List DynVal → Acc → Acc
  | [], acc => acc
  | d :: rest, acc =>
      addDirs rest (appendLast acc.1 " " ++ [""], acc.2 ++ [.atom d])

/-- `if (element.attributes) { ... }`: an absent record is skipped. -/
def addAttrsOpt : Option (List (String × Option String)) → Acc → Acc
  | none, acc => acc
  | some as, acc => (addAttrs as acc.1, acc.2)

/-- `if (element.properties) { ... }`: an absent record is skipped. -/
def addPropsOpt : Option (List (String × DynVal)) → Acc → Acc
  | none, acc => acc
  | some ps, acc => addProps ps acc

/-- `if (element.events) { ... }`: an absent record is skipped. -/
def addEventsOpt : Option (List (String × DynVal)) → Acc → Acc
  | none, acc => acc
  | some es, acc => addEvents es acc

/-- `if (element.directives) { ... }`: an absent sequence is skipped. -/
def addDirsOpt : Option (List DynVal) → Acc → Acc
  | none, acc => acc
  | some ds, acc => addDirs ds acc

mutual
/-- `_build(element, strings, values)` (builder.ts lines 34-123), with the
mutated accumulators threaded explicitly. Branches in source order: string
child (append to open fragment); duck-typed `TemplateResult` (push the
element itself as a dynamic value, open a new empty fragment, no markup);
fragment node (falsy `name`: only children are processed); tagged element
(open tag, attributes, properties, events, directives, `>`, children,
closing tag). The `element.children` presence check of the source is the
case split on the `children` field here. -/
def _build (element : Val) (acc : Acc) : Acc :=
  match element with
  | .atom (.str s) => appendText s acc
  | .atom _ => acc
  | .obj name attrs props evts dirs none hS hV =>
    if hS && hV then
      (acc.1 ++ [""], acc.2 ++ [.obj name attrs props evts dirs none hS hV])
    else if nameFalsy name then
      acc
    else
      appendText ("</" ++ sanitize (name.getD "") ++ ">")
        (appendText ">"
          (addDirsOpt dirs
            (addEventsOpt evts
              (addPropsOpt props
                (addAttrsOpt attrs
                  (appendText ("<" ++ sanitize (name.getD "")) acc))))))
  | .obj name attrs props evts dirs (some cs) hS hV =>
    if hS && hV then
      (acc.1 ++ [""], acc.2 ++ [.obj name attrs props evts dirs (some cs) hS hV])
    else if nameFalsy name then
      _buildList cs acc
    else
      appendText ("</" ++ sanitize (name.getD "") ++ ">")
        (_buildList cs
          (appendText ">"
            (addDirsOpt dirs
              (addEventsOpt evts
                (addPropsOpt props
                  (addAttrsOpt attrs
                    (appendText ("<" ++ sanitize (name.getD "")) acc)))))))

/-- The `for (const child of element.children) _build(child, ...)` loop:
compile each child in order into the same accumulators. -/
def _buildList (l : ValList) (acc : Acc) : Acc :=
  match l with
  | .nil => acc
  | .cons e rest => _buildList rest (_build e acc)
end

/-- The `build` entry point (builder.ts lines 131-148) accepts a single
element or an array of elements (`Array.isArray` dispatch). -/
inductive BuildInput where
  | one (e : Val)
  | many (es : ValList)

/-- `build(elements)` up to the host-engine boundary: accumulators start as
`([""], [])`, each top-level element is compiled in order, and the final
`(strings, values)` pair is what gets handed to `html(...)`. -/
def build : BuildInput → Acc
  | .one e => _build e ([""], [])
  | .many es => _buildList es ([""], [])

/-! ## Length bookkeeping

Every operation on the accumulators preserves the difference between the
number of fragments and the number of values: appending to the open
fragment changes neither list's length, and every pushed value comes with
exactly one freshly pushed fragment. -/

/-- The accumulator contract of one compilation step: the fragment/value
length difference of the output pair equals that of the input pair. -/
def StepOk (acc out : Acc) : Prop :=
  out.1.length + acc.2.length = acc.1.length + out.2.length

theorem StepOk.comp {a m out : Acc} (h1 : StepOk a m) (h2 : StepOk m out) :
    StepOk a out := by
  unfold StepOk at *
  omega

theorem StepOk.refl (acc : Acc) : StepOk acc acc := by
  simp [StepOk]

theorem appendLast_length (l : List String) (s : String) :
    (appendLast l s).length = l.length := by
  induction l with
  | nil => rfl
  | cons a rest ih =>
    cases rest with
    | nil => rfl
    | cons b r => simpa [appendLast] using ih

theorem appendText_ok (t : String) (acc : Acc) : StepOk acc (appendText t acc) := by
  simp [StepOk, appendText, appendLast_length]

theorem addAttrs_length (as : List (String × Option String)) (strings : List String) :
    (addAttrs as strings).length = strings.length := by
  induction as generalizing strings with
  | nil => rfl
  | cons kv rest ih =>
    obtain ⟨k, v⟩ := kv
    cases v with
    | none => simpa [addAttrs] using ih strings
    | some x => simp [addAttrs, ih, appendLast_length]

theorem addAttrsOpt_ok (attrs : Option (List (String × Option String)))
    (acc : Acc) : StepOk acc (addAttrsOpt attrs acc) := by
  cases attrs with
  | none => exact StepOk.refl acc
  | some as => simp [StepOk, addAttrsOpt, addAttrs_length]

theorem addProps_ok (ps : List (String × DynVal)) (acc : Acc) :
    StepOk acc (addProps ps acc) := by
  induction ps generalizing acc with
  | nil => exact StepOk.refl acc
  | cons kv rest ih =>
    obtain ⟨k, d⟩ := kv
    simp only [addProps]
    by_cases h : d.isUndef = true
    · rw [if_pos h]
      exact ih acc
    · rw [if_neg h]
      have hmid : StepOk acc
          (appendLast acc.1 (" ." ++ sanitize k ++ "=") ++ [""], acc.2 ++ [.atom d]) := by
        simp only [StepOk, List.length_append, appendLast_length, List.length_cons,
          List.length_nil]
        omega
      exact hmid.comp (ih _)

theorem addPropsOpt_ok (props : Option (List (String × DynVal))) (acc : Acc) :
    StepOk acc (addPropsOpt props acc) := by
  cases props with
  | none => exact StepOk.refl acc
  | some ps => exact addProps_ok ps acc

theorem addEvents_ok (es : List (String × DynVal)) (acc : Acc) :
    StepOk acc (addEvents es acc) := by
  induction es generalizing acc with
  | nil => exact StepOk.refl acc
  | cons kv rest ih =>
    obtain ⟨k, d⟩ := kv
    simp only [addEvents]
    by_cases h : d.isUndef = true
    · rw [if_pos h]
      exact ih acc
    · rw [if_neg h]
      have hmid : StepOk acc
          (appendLast acc.1 (" @" ++ sanitize k ++ "=") ++ [""], acc.2 ++ [.atom d]) := by
        simp only [StepOk, List.length_append, appendLast_length, List.length_cons,
          List.length_nil]
        omega
      exact hmid.comp (ih _)

theorem addEventsOpt_ok (evts : Option (List (String × DynVal))) (acc : Acc) :
    StepOk acc (addEventsOpt evts acc) := by
  cases evts with
  | none => exact StepOk.refl acc
  | some es => exact addEvents_ok es acc

theorem addDirs_ok (ds : List DynVal) (acc : Acc) : StepOk acc (addDirs ds acc) := by
  induction ds generalizing acc with
  | nil => exact StepOk.refl acc
  | cons d rest ih =>
    simp only [addDirs]
    have hmid : StepOk acc (appendLast acc.1 " " ++ [""], acc.2 ++ [.atom d]) := by
      simp only [StepOk, List.length_append, appendLast_length, List.length_cons,
        List.length_nil]
      omega
    exact hmid.comp (ih _)

theorem addDirsOpt_ok (dirs : Option (List DynVal)) (acc : Acc) :
    StepOk acc (addDirsOpt dirs acc) := by
  cases dirs with
  | none => exact StepOk.refl acc
  | some ds => exact addDirs_ok ds acc

mutual
/-- Number of tree nodes below (and including) a value; used as the
induction measure for the accumulator-contract proof. -/
def sizeV : Val → Nat
  | .atom _ => 1
  | .obj _ _ _ _ _ none _ _ => 1
  | .obj _ _ _ _ _ (some cs) _ _ => 1 + sizeL cs

/-- Total node count of a children sequence. -/
def sizeL : ValList → Nat
  | .nil => 0
  | .cons e rest => 1 + sizeV e + sizeL rest
end

/-- Both compiler entry shapes satisfy the accumulator contract; proved by
strong induction on the node count. -/
theorem build_ok_aux : ∀ n : Nat,
    (∀ e : Val, ∀ acc, sizeV e ≤ n → StepOk acc (_build e acc)) ∧
    (∀ l : ValList, ∀ acc, sizeL l ≤ n → StepOk acc (_buildList l acc)) := by
  intro n
  induction n using Nat.strong_induction_on with
  | _ n ih =>
  constructor
  · intro e acc hsize
    cases e with
    | atom d =>
      cases d with
      | str t => simp only [_build]; exact appendText_ok t acc
      | undef => simp only [_build]; exact StepOk.refl acc
      | bool b => simp only [_build]; exact StepOk.refl acc
      | num m => simp only [_build]; exact StepOk.refl acc
      | fn i => simp only [_build]; exact StepOk.refl acc
      | dirTok i => simp only [_build]; exact StepOk.refl acc
    | obj name attrs props evts dirs children hS hV =>
      cases children with
      | none =>
        simp only [_build]
        by_cases hsv : (hS && hV) = true
        · rw [if_pos hsv]
          simp only [StepOk, List.length_append, List.length_cons, List.length_nil]
          omega
        · rw [if_neg hsv]
          by_cases hname : nameFalsy name = true
          · rw [if_pos hname]
            exact StepOk.refl acc
          · rw [if_neg hname]
            exact ((((((appendText_ok ("<" ++ sanitize (name.getD "")) acc).comp
              (addAttrsOpt_ok attrs _)).comp
              (addPropsOpt_ok props _)).comp
              (addEventsOpt_ok evts _)).comp
              (addDirsOpt_ok dirs _)).comp
              (appendText_ok ">" _)).comp
              (appendText_ok ("</" ++ sanitize (name.getD "") ++ ">") _)
      | some cs =>
        have hlt : sizeL cs < n := by
          simp only [sizeV] at hsize
          omega
        have hrec : ∀ acc', StepOk acc' (_buildList cs acc') := fun acc' =>
          (ih (sizeL cs) hlt).2 cs acc' (Nat.le_refl _)
        simp only [_build]
        by_cases hsv : (hS && hV) = true
        · rw [if_pos hsv]
          simp only [StepOk, List.length_append, List.length_cons, List.length_nil]
          omega
        · rw [if_neg hsv]
          by_cases hname : nameFalsy name = true
          · rw [if_pos hname]
            exact hrec acc
          · rw [if_neg hname]
            exact (((((((appendText_ok ("<" ++ sanitize (name.getD "")) acc).comp
              (addAttrsOpt_ok attrs _)).comp
              (addPropsOpt_ok props _)).comp
              (addEventsOpt_ok evts _)).comp
              (addDirsOpt_ok dirs _)).comp
              (appendText_ok ">" _)).comp
              (hrec _)).comp
              (appendText_ok ("</" ++ sanitize (name.getD "") ++ ">") _)
  · intro l acc hsize
    cases l with
    | nil => simp only [_buildList]; exact StepOk.refl acc
    | cons e rest =>
      simp only [_buildList]
      have h1 : sizeV e < n := by
        simp only [sizeL] at hsize
        omega
      have h2 : sizeL rest < n := by
        simp only [sizeL] at hsize
        omega
      exact ((ih (sizeV e) h1).1 e acc (Nat.le_refl _)).comp
        ((ih (sizeL rest) h2).2 rest _ (Nat.le_refl _))

/-- The accumulator contract, for every node and every accumulator state. -/
theorem _build_ok (e : Val) (acc : Acc) : StepOk acc (_build e acc) :=
  (build_ok_aux (sizeV e)).1 e acc (Nat.le_refl _)

/-- The accumulator contract for a children sequence. -/
theorem _buildList_ok (l : ValList) (acc : Acc) : StepOk acc (_buildList l acc) :=
  (build_ok_aux (sizeL l)).2 l acc (Nat.le_refl _)

/-- Appending to the open fragment never empties the fragment list. -/
theorem appendLast_ne_nil (l : List String) (a : String) (h : l ≠ []) :
    appendLast l a ≠ [] := by
  cases l with
  | nil => exact absurd rfl h
  | cons x rest => cases rest <;> simp [appendLast]

/-- `appendLast` skips past the head of a list with a nonempty tail. -/
theorem appendLast_cons (x : String) (l : List String) (b : String) (h : l ≠ []) :
    appendLast (x :: l) b = x :: appendLast l b := by
  cases l with
  | nil => exact absurd rfl h
  | cons y r => rfl

/-- Appending twice to the open fragment is appending the concatenation. -/
theorem appendLast_appendLast (l : List String) (a b : String) :
    appendLast (appendLast l a) b = appendLast l (a ++ b) := by
  induction l with
  | nil => rfl
  | cons x rest ih =>
    cases rest with
    | nil => simp [appendLast, String.append_assoc]
    | cons y r =>
      have h1 : appendLast (y :: r) a ≠ [] := appendLast_ne_nil _ _ (by simp)
      show appendLast (x :: appendLast (y :: r) a) b = x :: appendLast (y :: r) (a ++ b)
      rw [appendLast_cons x _ b h1, ih]

/-! ## Example inputs shared by several scenario claims -/

/-- The nested/mixed-content scenario input of the spec:
`{tag:"ul", children:[{tag:"li", children:["A"]}, "B", {tag:"li", children:["C"]}]}`. -/
def ulExample : Val :=
  .obj (some "ul") none none none none
    (some (.cons (.obj (some "li") none none none none
        (some (.cons (.atom (.str "A")) .nil)) false false)
      (.cons (.atom (.str "B"))
        (.cons (.obj (some "li") none none none none
            (some (.cons (.atom (.str "C")) .nil)) false false)
          .nil))))
    false false

/-- The fragment-identity scenario element: `{tag:"span", children:["x"]}`. -/
def spanExample : Val :=
  .obj (some "span") none none none none
    (some (.cons (.atom (.str "x")) .nil)) false false

/-! ## The spec claims -/

/-- C1: for every input — a single Element Descriptor or an ordered sequence
of descriptors, of any nesting depth and any mix of text, precompiled
fragment, fragment and tagged nodes — after `build` completes, the fragment
sequence is exactly one longer than the value sequence. -/
theorem c1_fragment_value_length_invariant (i : BuildInput) :
    (build i).1.length = (build i).2.length + 1 := by
  cases i with
  | one e =>
    have h := _build_ok e ([""], [])
    simp only [StepOk, List.length_cons, List.length_nil] at h
    simp only [build]
    omega
  | many es =>
    have h := _buildList_ok es ([""], [])
    simp only [StepOk, List.length_cons, List.length_nil] at h
    simp only [build]
    omega

/-- C2: what the code actually does at the claim's input
`{tag:"a", attributes:{href:'<>&"'}}`: because the `&`-escaping pass runs
after the `<` and `>` passes, the `&` of the freshly inserted `&lt;` and
`&gt;` entities is escaped again, producing `href="&amp;lt;&amp;gt;&amp;&quot;"`
instead of the claimed `href="&lt;&gt;&amp;&quot;"`; `<` and `>` are
double-escaped, not escaped exactly once. -/
theorem c2_attribute_escaping_at_failing_input :
    build (.one (.obj (some "a") (some [("href", some "<>&\"")])
        none none none none false false))
      = (["<a href=\"&amp;lt;&amp;gt;&amp;&quot;\"></a>"], [])
    ∧ escapeAttr "<>&\"" = "&amp;lt;&amp;gt;&amp;&quot;" := ⟨rfl, rfl⟩

/-- C3 counterexample: compiling
`{tag:"ul", children:[{tag:"li", children:["A"]}, "B", {tag:"li", children:["C"]}]}`
does not produce the fragment sequence `["<ul><li>", "</li>B<li>", "</li></ul>"]`
asserted by the claim (that split also omits the text children "A" and "C",
and with zero values it would violate the length invariant). -/
theorem c3_counterexample :
    (build (.one ulExample)).1 ≠ ["<ul><li>", "</li>B<li>", "</li></ul>"] := by
  decide

/-- C3 (amended): compiling the nested/mixed-content scenario input yields
the single fragment `["<ul><li>A</li>B<li>C</li></ul>"]` — all literal text,
including the plain-text child "B" and the nested text "A" and "C", merges
into one open fragment — and zero dynamic values. -/
theorem c3_nested_mixed_content_amended :
    build (.one ulExample) = (["<ul><li>A</li>B<li>C</li></ul>"], []) := rfl

/-- C4: for `{tag:"div", properties:{x:1, y:2}, events:{click:fn}}` the
emitted values sequence is exactly `[1, 2, fn]` in declared order —
properties in entry order, then events in entry order — and each pushed
value is immediately followed by a freshly opened fragment, as the fragment
sequence `["<div .x=", " .y=", " @click=", "></div>"]` shows. -/
theorem c4_ordering_preservation :
    build (.one (.obj (some "div") none
        (some [("x", .num 1), ("y", .num 2)])
        (some [("click", .fn "fn")]) none none false false))
      = (["<div .x=", " .y=", " @click=", "></div>"],
         [.atom (.num 1), .atom (.num 2), .atom (.fn "fn")]) := rfl

/-- C5: an attribute/property/event entry whose value is `undefined` is
silently skipped — it contributes no fragment text and no dynamic value —
while other falsy values (empty string, 0, false) are emitted; in
particular `{tag:"div", attributes:{a:"1", b:undefined}}` emits exactly one
attribute `a="1"` and zero values. -/
theorem c5_undefined_skipping :
    (∀ (key : String) (rest : List (String × Option String)) (strings : List String),
        addAttrs ((key, none) :: rest) strings = addAttrs rest strings)
    ∧ (∀ (key : String) (rest : List (String × DynVal)) (acc : Acc),
        addProps ((key, .undef) :: rest) acc = addProps rest acc)
    ∧ (∀ (key : String) (rest : List (String × DynVal)) (acc : Acc),
        addEvents ((key, .undef) :: rest) acc = addEvents rest acc)
    ∧ build (.one (.obj (some "div") (some [("a", some "1"), ("b", none)])
        none none none none false false)) = (["<div a=\"1\"></div>"], [])
    ∧ addAttrs [("c", some "")] ["<div"] = ["<div c=\"\""]
    ∧ addProps [("p", .num 0)] (["<div"], []) = (["<div .p=", ""], [.atom (.num 0)])
    ∧ addEvents [("e", .bool false)] (["<div"], [])
        = (["<div @e=", ""], [.atom (.bool false)]) := by
  refine ⟨fun key rest strings => rfl, fun key rest acc => rfl,
    fun key rest acc => rfl, rfl, rfl, rfl, rfl⟩

/-- C6: compiling a descriptor with no tag whose children are
`[{tag:"span", children:["x"]}]` produces exactly the same
(fragments, values) pair as compiling `{tag:"span", children:["x"]}`
directly — in fact wrapping any single node in a tagless descriptor is the
identity on the compilation — so a fragment node contributes no wrapping
markup of its own. -/
theorem c6_fragment_identity :
    (∀ (e : Val) (acc : Acc),
        _build (.obj none none none none none (some (.cons e .nil)) false false) acc
          = _build e acc)
    ∧ build (.one (.obj none none none none none
        (some (.cons spanExample .nil)) false false))
      = build (.one spanExample) := by
  constructor
  · intro e acc
    simp [_build, _buildList, nameFalsy]
  · rfl

/-- C7: for every Element Descriptor whose tag is absent, any supplied
attributes, properties, events and directives are ignored — they contribute
no fragment text and no dynamic values; only the children sequence is
processed, and a fragment node with no children leaves both accumulators
unchanged. -/
theorem c7_fragment_ignores_bindings :
    (∀ (a : Option (List (String × Option String)))
        (p ev : Option (List (String × DynVal))) (d : Option (List DynVal))
        (ch : ValList) (acc : Acc),
        _build (.obj none a p ev d (some ch) false false) acc = _buildList ch acc)
    ∧ (∀ (a : Option (List (String × Option String)))
        (p ev : Option (List (String × DynVal))) (d : Option (List DynVal))
        (acc : Acc),
        _build (.obj none a p ev d none false false) acc = acc) := by
  constructor
  · intro a p ev d ch acc
    simp [_build, nameFalsy]
  · intro a p ev d acc
    simp [_build, nameFalsy]

/-- C8: a child object carrying both expected fields `strings` and `values`
is classified as a precompiled host-engine template — whatever its other
fields say, so this duck-typed classification takes precedence over the
Element Descriptor interpretation — and is compiled by pushing the object
itself as the next dynamic value and starting a new empty open fragment,
with no markup text; an object with only one of the two fields is not so
classified. -/
theorem c8_template_duck_typing :
    (∀ (name : Option String) (a : Option (List (String × Option String)))
        (p ev : Option (List (String × DynVal))) (d : Option (List DynVal))
        (ch : Option ValList) (acc : Acc),
        _build (.obj name a p ev d ch true true) acc
          = (acc.1 ++ [""], acc.2 ++ [.obj name a p ev d ch true true]))
    ∧ build (.one (.obj (some "div") none none none none none true false))
      = (["<div></div>"], []) := by
  constructor
  · intro name a p ev d ch acc
    cases ch <;> simp [_build]
  · rfl

/-- C9: the compiler validates nothing about tag-name legality: a tag name
that sanitizes to the empty string still compiles (the embedding is a total
function), emitting the degenerate markup `<>` ... `</>` around its
compiled children rather than failing. -/
theorem c9_no_validation_degenerate_markup (n : String) (ch : ValList) (acc : Acc)
    (hne : n ≠ "") (hsan : sanitize n = "") :
    _build (.obj (some n) none none none none (some ch) false false) acc
      = appendText "</>" (_buildList ch (appendText "<>" acc)) := by
  have hfalsy : nameFalsy (some n) ≠ true := by
    simp [nameFalsy, String.isEmpty_iff, hne]
  simp only [_build, Bool.false_and, Bool.false_eq_true, if_false, hsan,
    Option.getD_some, if_neg hfalsy, addAttrsOpt, addPropsOpt, addEventsOpt,
    addDirsOpt, appendText, appendLast_appendLast]
  rfl

/-- C9 witness: the all-symbolic tag name `"@#$"` is nonempty yet sanitizes
to the empty string, and with a single text child the degenerate `<>x</>`
markup is produced. -/
theorem c9_witness :
    "@#$" ≠ "" ∧ sanitize "@#$" = ""
    ∧ _build (.obj (some "@#$") none none none none
        (some (.cons (.atom (.str "x")) .nil)) false false) ([""], [])
      = appendText "</>" (_buildList (.cons (.atom (.str "x")) .nil)
          (appendText "<>" ([""], []))) :=
  ⟨by decide, by decide,
    c9_no_validation_degenerate_markup "@#$" (.cons (.atom (.str "x")) .nil)
      ([""], []) (by decide) (by decide)⟩

/-- C10: the directives sequence is never filtered for `undefined`: every
entry of the array — an `undefined` entry included — appends a single space
to the open fragment, is pushed as a dynamic value, and is followed by a
new empty fragment; e.g. `{tag:"input", directives:[D, undefined]}` yields
values `[D, undefined]`. -/
theorem c10_directives_never_filtered :
    (∀ (d : DynVal) (rest : List DynVal) (acc : Acc),
        addDirs (d :: rest) acc
          = addDirs rest (appendLast acc.1 " " ++ [""], acc.2 ++ [.atom d]))
    ∧ (∀ (ds : List DynVal) (acc : Acc),
        (addDirs ds acc).2 = acc.2 ++ ds.map .atom)
    ∧ build (.one (.obj (some "input") none none none
        (some [.dirTok "D", .undef]) none false false))
      = (["<input ", " ", "></input>"], [.atom (.dirTok "D"), .atom .undef]) := by
  refine ⟨fun d rest acc => rfl, ?_, rfl⟩
  intro ds
  induction ds with
  | nil => intro acc; simp [addDirs]
  | cons d rest ih =>
    intro acc
    simp [addDirs, ih]

end LitBuilder
